import Mathlib

/-!
# Verification of the librescoot version-service against its specification

Shallow embedding of `cmd/version-service/main.go`.  Go strings are modelled
as Lean `String`s (lists of characters); file and device reads, the Redis
connectivity probe and `HSET` operations are modelled by an explicit
environment record supplying the outcome of each external operation, so that
`main` becomes a pure function from the environment to an exit code together
with the ordered trace of attempted store writes.

Error message *contents* attached to failed reads are carried through
faithfully where the Go code builds them from pure string formatting, and are
supplied by the environment where they originate in the OS; no claim depends
on their text, only on presence or absence of errors.
-/

namespace VersionService

/-! ## Character / string helpers (Go `strings` package semantics) -/

/-- The ASCII whitespace characters recognised by Go `strings.TrimSpace`
(`unicode.IsSpace` restricted to Latin-1: space, tab, newline, vertical tab,
form feed, carriage return). -/
def isSpace (c : Char) : Bool :=
  c = ' ' || c = '\t' || c = '\n' || c = '\x0b' || c = '\x0c' || c = '\r'

/-- Go `strings.TrimSpace` on the character list. -/
def trimSpaceChars (cs : List Char) : List Char :=
  ((cs.dropWhile isSpace).reverse.dropWhile isSpace).reverse

/-- Go `strings.ToLower` on the character list (ASCII letters). -/
def toLowerChars (cs : List Char) : List Char :=
  cs.map Char.toLower

/-- Go `strings.Trim(s, "\"")` on the character list: removes ALL leading and
trailing double-quote characters. -/
def trimQuotesChars (cs : List Char) : List Char :=
  ((cs.dropWhile (fun c => c = '"')).reverse.dropWhile (fun c => c = '"')).reverse

/-- Go `strings.Trim(s, "\"")`. -/
def trimQuotes (s : String) : String :=
  String.mk (trimQuotesChars s.toList)

/-- Go `strings.SplitN(line, "=", 2)` restricted to the case the caller keeps:
`some (before, after)` splitting at the FIRST `=`; `none` when the line has no
`=` at all (Go then returns a 1-element slice and the caller skips the line). -/
def splitEqChars : List Char → Option (List Char × List Char)
  | [] => none
  | c :: cs =>
    if c = '=' then some ([], cs)
    else
      match splitEqChars cs with
      | none => none
      | some kv => some (c :: kv.1, kv.2)

/-! ## Release-file parser (`readOSRelease`) -/

/-- One iteration of the scanner loop of `readOSRelease`, yielding the map
entry a line contributes, if any: blank lines, `#` lines and lines without
`=` are skipped; otherwise the key is lower-cased and the value has all
surrounding double quotes trimmed. -/
def parseLineEntry (line : String) : Option (String × String) :=
  if line.toList = [] then none
  else if line.toList.head? = some '#' then none
  else
    match splitEqChars line.toList with
    | none => none
    | some kv => some (String.mk (toLowerChars kv.1), String.mk (trimQuotesChars kv.2))

/-- Go map assignment `data[key] = value` on an association-list model of the
map: replace the value at an existing key in place, otherwise append. -/
def setEntry (m : List (String × String)) (k v : String) : List (String × String) :=
  match m with
  | [] => [(k, v)]
  | e :: rest => if e.1 = k then (k, v) :: rest else e :: setEntry rest k v

/-- Go map lookup `data[key]` on the association-list model. -/
def lookupEntry (m : List (String × String)) (k : String) : Option String :=
  match m with
  | [] => none
  | e :: rest => if e.1 = k then some e.2 else lookupEntry rest k

/-- The scanner loop of `readOSRelease` over the file's lines (the
`bufio.Scanner` tokens, which contain no newline and no trailing `\r`). -/
def parseOSRelease (lines : List String) : List (String × String) :=
  lines.foldl
    (fun data line =>
      match parseLineEntry line with
      | none => data
      | some kv => setEntry data kv.1 kv.2)
    []

/-- `readOSRelease`: the file-open outcome and a possible mid-stream scanner
error are supplied by the environment; partial results are discarded on a
scanner error, exactly as in the Go code. -/
def readOSRelease (openResult : Except String (List String))
    (scanErr : Option String) : Except String (List (String × String)) :=
  match openResult with
  | .error e => .error ("failed to open /etc/os-release: " ++ e)
  | .ok lines =>
    match scanErr with
    | some e => .error ("error reading /etc/os-release: " ++ e)
    | none => .ok (parseOSRelease lines)

/-- Serialisation of a parsed record's entries as unquoted `key=value` lines
(the round-trip direction used by the specification's round-trip property). -/
def serializeEntries (m : List (String × String)) : List String :=
  m.map (fun e => String.mk (e.1.toList ++ '=' :: e.2.toList))

/-! ## Identifier source reader (`getIdentifierHexStrings`, `readHexValueFromNvmem`) -/

/-- Fixed path of the byte-addressable NVMEM device. -/
def nvmemDevicePath : String := "/sys/bus/nvmem/devices/imx-ocotp0/nvmem"

/-- Fixed path of the CFG0 OTP sysfs pseudo-file. -/
def otpCfg0Path : String := "/sys/fsl_otp/HW_OCOTP_CFG0"

/-- Fixed path of the CFG1 OTP sysfs pseudo-file. -/
def otpCfg1Path : String := "/sys/fsl_otp/HW_OCOTP_CFG1"

/-- Outcomes of the hardware-facing reads, supplied by the environment:
whether `os.Stat` on the NVMEM device succeeds, the combined outcome of
open/seek/read of the device at a byte offset (on success the bytes actually
read, possibly fewer or more than 4), and the outcome of `os.ReadFile` on an
OTP pseudo-file path.  Error values carry the OS error text. -/
structure HwEnv where
  nvmemPresent : Bool
  nvmemRead : Nat → Except String (List (Fin 256))
  otpRead : String → Except String String

/-- `readHexValueFromNvmem`: reads 4 bytes from the NVMEM device at `offset`
and renders them as an 8-character hex string, bytes in the order
`buffer[3] buffer[2] buffer[1] buffer[0]` (Go `fmt.Sprintf "%02x%02x%02x%02x"`). -/
def byteToHex (b : Fin 256) : List Char :=
  [Nat.digitChar (b.val / 16), Nat.digitChar (b.val % 16)]

def readHexValueFromNvmem (env : HwEnv) (offset : Nat) : Except String String :=
  match env.nvmemRead offset with
  | .error e => .error e
  | .ok buffer =>
    if h : buffer.length = 4 then
      let hexStr := String.mk (byteToHex buffer[3] ++ byteToHex buffer[2] ++
        byteToHex buffer[1] ++ byteToHex buffer[0])
      if hexStr.toList.length = 8 then .ok hexStr
      else .error ("internal error: formatted hex string length is not 8: got " ++ hexStr)
    else
      .error ("unexpected number of bytes read from NVMEM device " ++ nvmemDevicePath ++
        ": got " ++ Nat.repr buffer.length ++ ", expected 4")

/-- The processing `getIdentifierHexStrings` applies to the content of an OTP
pseudo-file: `strings.TrimPrefix(strings.ToLower(strings.TrimSpace(data)), "0x")`. -/
def otpContentToHex (data : String) : String :=
  let content := toLowerChars (trimSpaceChars data.toList)
  match content with
  | '0' :: 'x' :: rest => String.mk rest
  | _ => String.mk content

/-- A read attempt against one of the two hardware sources, recorded in order
for reasoning about which sources a run touches. -/
inductive Attempt where
  | nvmem (offset : Nat)
  | otp (path : String)
deriving DecidableEq, Repr

/-- State of one field's resolution: the hex string so far (empty = not yet
resolved), the accumulated error details, and the ordered read attempts. -/
structure FieldRes where
  hex : String
  errDetails : List String
  attempts : List Attempt
deriving DecidableEq, Repr

/-- One field block of `getIdentifierHexStrings` (the Go function writes this
block out twice, once per field, identical up to the offset, the OTP path and
the `4`/`8` in the NVMEM error label): try NVMEM when present, then try the
OTP pseudo-file whenever the hex string is still empty; an OTP success clears
the accumulated error details. -/
def resolveField (env : HwEnv) (offset : Nat) (otpPath : String) : FieldRes :=
  let r0 : FieldRes :=
    if env.nvmemPresent then
      match readHexValueFromNvmem env offset with
      | .ok val => ⟨val, [], [Attempt.nvmem offset]⟩
      | .error e => ⟨"", ["NVMEM(offset " ++ Nat.repr offset ++ "): " ++ e],
          [Attempt.nvmem offset]⟩
    else ⟨"", ["NVMEM: not found"], []⟩
  if r0.hex = "" then
    match env.otpRead otpPath with
    | .ok data => ⟨otpContentToHex data, [], r0.attempts ++ [Attempt.otp otpPath]⟩
    | .error e => ⟨"", r0.errDetails ++ ["OTP(" ++ otpPath ++ "): " ++ e],
        r0.attempts ++ [Attempt.otp otpPath]⟩
  else r0

/-- Result of `getIdentifierHexStrings`: the two hex strings (possibly empty),
the error return value (`none` = Go `nil`), and the ordered read attempts. -/
structure IdResult where
  cfg0Hex : String
  cfg1Hex : String
  err : Option String
  trace : List Attempt
deriving DecidableEq, Repr

/-- `getIdentifierHexStrings`: resolve CFG0 (NVMEM offset 4, then OTP CFG0
file) and CFG1 (NVMEM offset 8, then OTP CFG1 file); a field still empty with
error details pending contributes a `CFGn_read_failed` message, and the error
return is `nil` exactly when no messages accumulated. -/
def getIdentifierHexStrings (env : HwEnv) : IdResult :=
  let f0 := resolveField env 4 otpCfg0Path
  let f1 := resolveField env 8 otpCfg1Path
  let errMessages : List String :=
    (if f0.hex = "" ∧ f0.errDetails ≠ [] then
      ["CFG0_read_failed: \x7b" ++ String.intercalate ", " f0.errDetails ++ "\x7d"]
     else []) ++
    (if f1.hex = "" ∧ f1.errDetails ≠ [] then
      ["CFG1_read_failed: \x7b" ++ String.intercalate ", " f1.errDetails ++ "\x7d"]
     else [])
  { cfg0Hex := f0.hex, cfg1Hex := f1.hex,
    err := if errMessages = [] then none else some (String.intercalate "; " errMessages),
    trace := f0.attempts ++ f1.attempts }

/-! ## Hex parsing (`parseHexFromString`, wrapping `strconv.ParseUint(s, 16, 64)`) -/

/-- The digit value `strconv.ParseUint` assigns to a character in base 16:
`0`-`9`, `a`-`f`, `A`-`F`; anything else is a syntax error. -/
def hexDigitVal (c : Char) : Option Nat :=
  if '0' ≤ c ∧ c ≤ '9' then some (c.toNat - '0'.toNat)
  else if 'a' ≤ c ∧ c ≤ 'f' then some (c.toNat - 'a'.toNat + 10)
  else if 'A' ≤ c ∧ c ≤ 'F' then some (c.toNat - 'A'.toNat + 10)
  else none

/-- One step of the digit-accumulation loop of `strconv.ParseUint` (base 16):
`none` once any non-digit character has been seen. -/
def parseHexStep (acc : Option Nat) (c : Char) : Option Nat :=
  match acc, hexDigitVal c with
  | some n, some d => some (n * 16 + d)
  | _, _ => none

/-- Digit-accumulation loop of `strconv.ParseUint` (base 16), without the
range check. -/
def parseHexDigits (cs : List Char) : Option Nat :=
  cs.foldl parseHexStep (some 0)

/-- `parseHexFromString`: Go `strconv.ParseUint(hexStr, 16, 64)` with the
error collapsed to `none` (the Go wrapper only ever tests the error against
`nil`).  `ParseUint` rejects the empty string, any non-hex-digit character,
and any value outside `[0, 2^64)` (its per-step cutoff/overflow checks are
equivalent to accumulating exactly and range-checking at the end). -/
def parseHexFromString (s : String) : Option Nat :=
  if s.toList = [] then none
  else
    match parseHexDigits s.toList with
    | none => none
    | some n => if n < 2 ^ 64 then some n else none

/-! ## The `main` run (store writes and exit code) -/

/-- Environment of one `main` run: the outcome of opening `/etc/os-release`
(its scanner lines on success), a possible mid-stream scanner error, the
outcome of the Redis `PING` probe, the outcome of each `HSET` (keyed by field
and value; `true` = the call fails), and the hardware environment. -/
structure MainEnv where
  osOpen : Except String (List String)
  scanErr : Option String
  pingOk : Bool
  hsetFail : String → String → Bool
  hw : HwEnv

/-- Result of a `main` run: the process exit code (0 = success, 1 =
`log.Fatalf`) and the ordered trace of attempted `HSET` field writes,
including a failing attempt. -/
structure RunResult where
  exitCode : Nat
  writes : List (String × String)
deriving DecidableEq, Repr

/-- The `HSET` loop over the parsed os-release entries: attempts each write in
order and stops at the first failure (Go `log.Fatalf` inside the loop).
Returns the attempted writes and whether all of them succeeded. -/
def hsetSeq (env : MainEnv) : List (String × String) → List (String × String) × Bool
  | [] => ([], true)
  | e :: rest =>
    if env.hsetFail e.1 e.2 then ([e], false)
    else
      let r := hsetSeq env rest
      (e :: r.1, r.2)

/-- The two serial-number blocks of `main`, given the identifier-read result:
the legacy block writes `serial_number` (decimal of the wrapping 64-bit sum)
only when both hex strings are non-empty AND both parse; the real block
writes `serial_number_real` (CFG1 hex ++ CFG0 hex) whenever both hex strings
are non-empty, with no parse requirement.  A failing write is fatal and stops
the run (the real block is not reached if the legacy write fails). -/
def serialNumberWrites (env : MainEnv) (idr : IdResult) :
    List (String × String) × Bool :=
  let legacy : List (String × String) × Bool :=
    if idr.cfg0Hex ≠ "" ∧ idr.cfg1Hex ≠ "" then
      match parseHexFromString idr.cfg0Hex, parseHexFromString idr.cfg1Hex with
      | some v0, some v1 =>
        let sn := Nat.repr ((v0 + v1) % 2 ^ 64)
        ([("serial_number", sn)], !env.hsetFail "serial_number" sn)
      | _, _ => ([], true)
    else ([], true)
  if legacy.2 = false then (legacy.1, false)
  else
    let real : List (String × String) × Bool :=
      if idr.cfg0Hex ≠ "" ∧ idr.cfg1Hex ≠ "" then
        let rsn := idr.cfg1Hex ++ idr.cfg0Hex
        ([("serial_number_real", rsn)], !env.hsetFail "serial_number_real" rsn)
      else ([], true)
    (legacy.1 ++ real.1, real.2)

/-- The body of `main` after flag parsing: read the release file (fatal on
error), probe the store (fatal on error, before any write), write the release
entries (fatal on first failure), read the identifier parts (warnings only),
then run the two serial-number blocks (each write failure fatal).  The Go map
iteration order is unspecified; the model iterates in parsed-entry order,
which affects only the order of the writes, not any claim. -/
def mainRun (env : MainEnv) : RunResult :=
  match readOSRelease env.osOpen env.scanErr with
  | .error _ => ⟨1, []⟩
  | .ok osReleaseData =>
    if env.pingOk = false then ⟨1, []⟩
    else
      let osw := hsetSeq env osReleaseData
      if osw.2 = false then ⟨1, osw.1⟩
      else
        let idr := getIdentifierHexStrings env.hw
        let ser := serialNumberWrites env idr
        if ser.2 = false then ⟨1, osw.1 ++ ser.1⟩
        else ⟨0, osw.1 ++ ser.1⟩

/-! ## Helper lemmas -/

theorem toNat_ofNat_valid (n : Nat) (h : n.isValidChar) : (Char.ofNat n).toNat = n := by
  unfold Char.ofNat
  rw [dif_pos h]
  rfl

theorem toLower_eq_ite (c : Char) :
    Char.toLower c =
      if c.toNat ≥ 65 ∧ c.toNat ≤ 90 then Char.ofNat (c.toNat + 32) else c := rfl

theorem toLower_eq_or_range (c : Char) :
    Char.toLower c = c ∨
      (97 ≤ (Char.toLower c).toNat ∧ (Char.toLower c).toNat ≤ 122) := by
  rw [toLower_eq_ite]
  by_cases h : c.toNat ≥ 65 ∧ c.toNat ≤ 90
  · right
    rw [if_pos h]
    have hv : (c.toNat + 32).isValidChar := by
      refine Or.inl ?_
      omega
    rw [toNat_ofNat_valid _ hv]
    omega
  · left
    rw [if_neg h]

theorem toLower_of_not_upper (c : Char) (h : ¬(65 ≤ c.toNat ∧ c.toNat ≤ 90)) :
    Char.toLower c = c := by
  rw [toLower_eq_ite, if_neg h]

theorem toLower_toLower (c : Char) : Char.toLower (Char.toLower c) = Char.toLower c := by
  rcases toLower_eq_or_range c with h | h
  · rw [h, h]
  · exact toLower_of_not_upper _ (by omega)

theorem toLower_eq_low_imp (c t : Char) (ht : ¬(97 ≤ t.toNat ∧ t.toNat ≤ 122))
    (h : Char.toLower c = t) : c = t := by
  rcases toLower_eq_or_range c with h2 | h2
  · rw [← h2, h]
  · rw [h] at h2
    exact absurd h2 ht

theorem readHexValueFromNvmem_ok_length (env : HwEnv) (offset : Nat) (val : String)
    (h : readHexValueFromNvmem env offset = .ok val) : val.toList.length = 8 := by
  unfold readHexValueFromNvmem at h
  split at h
  · exact Except.noConfusion h
  · split at h
    · try dsimp only at h
      split at h
      · rename_i h8
        cases h
        exact h8
      · exact Except.noConfusion h
    · exact Except.noConfusion h

theorem readHexValueFromNvmem_ok_ne_empty (env : HwEnv) (offset : Nat) (val : String)
    (h : readHexValueFromNvmem env offset = .ok val) : val ≠ "" := by
  have hl := readHexValueFromNvmem_ok_length env offset val h
  intro hv
  subst hv
  simp at hl

theorem resolveField_attempts (env : HwEnv) (offset : Nat) (path : String) :
    (resolveField env offset path).attempts =
      if env.nvmemPresent then
        Attempt.nvmem offset ::
          (if (readHexValueFromNvmem env offset).isOk then [] else [Attempt.otp path])
      else [Attempt.otp path] := by
  unfold resolveField
  cases hp : env.nvmemPresent with
  | false =>
    simp only [if_false, Bool.false_eq_true]
    split <;> rename_i hr
    · rcases ho : env.otpRead path with e | data <;> simp [ho]
    · simp at hr
  | true =>
    simp only [if_true]
    rcases hn : readHexValueFromNvmem env offset with e | val
    · simp only [Except.isOk, Except.toBool, Bool.false_eq_true, if_false]
      rcases ho : env.otpRead path with e2 | data <;> simp [ho]
    · have hne := readHexValueFromNvmem_ok_ne_empty env offset val hn
      simp [hne, Except.isOk, Except.toBool]

/-! ## C1: order of the identifier sources -/

/-- Environment in which both OTP pseudo-files are present and readable and
the NVMEM device is present and readable. -/
def envC1 : HwEnv :=
  { nvmemPresent := true
    nvmemRead := fun _ => .ok [1, 2, 3, 4]
    otpRead := fun _ => .ok "0xdeadbeef" }

/-- C1 counterexample: with both pseudo-files readable, the run nevertheless
reads the NVMEM device (and only it) — the device is attempted although the
pseudo-file "primary" read would succeed, so the device is not a fallback
attempted only on primary failure; the code treats the device as primary. -/
theorem c1_counterexample :
    (getIdentifierHexStrings envC1).trace = [Attempt.nvmem 4, Attempt.nvmem 8] ∧
    envC1.otpRead otpCfg0Path = .ok "0xdeadbeef" ∧
    envC1.otpRead otpCfg1Path = .ok "0xdeadbeef" :=
  ⟨rfl, rfl, rfl⟩

/-- C1 (amended): for each identifier field, resolution first attempts the
byte-addressable device (the primary source) whenever the device is present,
and the field's dedicated pseudo-file (the fallback source) is attempted
exactly when the device is absent or the device read fails; the fallback is
never attempted when the device read succeeds. -/
theorem c1_device_is_primary (env : HwEnv) :
    (getIdentifierHexStrings env).trace =
      (if env.nvmemPresent then
        Attempt.nvmem 4 ::
          (if (readHexValueFromNvmem env 4).isOk then [] else [Attempt.otp otpCfg0Path])
      else [Attempt.otp otpCfg0Path]) ++
      (if env.nvmemPresent then
        Attempt.nvmem 8 ::
          (if (readHexValueFromNvmem env 8).isOk then [] else [Attempt.otp otpCfg1Path])
      else [Attempt.otp otpCfg1Path]) := by
  show (resolveField env 4 otpCfg0Path).attempts ++ (resolveField env 8 otpCfg1Path).attempts = _
  rw [resolveField_attempts, resolveField_attempts]

/-! ## C9: nil error with an empty, unresolved field -/

/-- Environment: NVMEM device absent, the CFG0 pseudo-file readable but
containing only whitespace, the CFG1 pseudo-file readable with a valid value. -/
def envC9 : HwEnv :=
  { nvmemPresent := false
    nvmemRead := fun _ => .error "open /sys/bus/nvmem/devices/imx-ocotp0/nvmem: no such file or directory"
    otpRead := fun p => if p = otpCfg0Path then .ok " \n" else .ok "0xDEADBEEF" }

/-- C9: `getIdentifierHexStrings` can return a `nil` error together with an
empty CFG0 hex string: the whitespace-only pseudo-file read counts as a
success, clears the accumulated error details, and leaves the field empty, so
no `CFG0_read_failed` message is recorded and the error return is `nil`. -/
theorem c9_nil_error_with_empty_field :
    (getIdentifierHexStrings envC9).cfg0Hex = "" ∧
    (getIdentifierHexStrings envC9).cfg1Hex = "deadbeef" ∧
    (getIdentifierHexStrings envC9).err = none := by
  refine ⟨rfl, by decide, rfl⟩

/-! ## C3: value quoting in the release-file parser -/

/-- Modelled from the spec: "the parsed value equals VALUE with exactly one
layer of surrounding double quotes stripped if present". -/
def stripOneQuoteLayer (s : String) : String :=
  let cs := s.toList
  if 2 ≤ cs.length ∧ cs.head? = some '"' ∧ cs.getLast? = some '"' then
    String.mk ((cs.drop 1).dropLast)
  else s

theorem splitEqChars_append (ks vs : List Char) (h : '=' ∉ ks) :
    splitEqChars (ks ++ '=' :: vs) = some (ks, vs) := by
  induction ks with
  | nil => rfl
  | cons c cs ih =>
    have hc : ¬c = '=' := fun hcc => h (hcc ▸ List.mem_cons_self c cs)
    have hm : '=' ∉ cs := fun hmm => h (List.mem_cons_of_mem c hmm)
    simp only [List.cons_append, splitEqChars, if_neg hc, List.append_eq, ih hm]

/-- C3 counterexample: for the well-formed line `A=""x""` the parser yields
the value `x` (ALL surrounding double quotes removed, Go `strings.Trim`),
whereas one-layer stripping as claimed would yield `"x"`. -/
theorem c3_counterexample :
    parseOSRelease [String.mk ['A', '=', '"', '"', 'x', '"', '"']] =
      [("a", "x")] ∧
    stripOneQuoteLayer (String.mk ['"', '"', 'x', '"', '"']) = "\"x\"" ∧
    ("x" : String) ≠ "\"x\"" := by
  refine ⟨by decide, by decide, by decide⟩

/-- C3 (amended): for every well-formed `KEY=VALUE` line (KEY containing no
`=`, the line not a comment), the parsed key is the lowercase of KEY and the
parsed value is VALUE with ALL leading and trailing double-quote characters
stripped (Go `strings.Trim(value, "\"")`), internal characters untouched. -/
theorem c3_key_lower_value_trimmed (ks vs : List Char) (h1 : '=' ∉ ks)
    (h2 : ks.head? ≠ some '#') :
    parseOSRelease [String.mk (ks ++ '=' :: vs)] =
      [(String.mk (toLowerChars ks), String.mk (trimQuotesChars vs))] := by
  have hsplit := splitEqChars_append ks vs h1
  have hentry : parseLineEntry (String.mk (ks ++ '=' :: vs)) =
      some (String.mk (toLowerChars ks), String.mk (trimQuotesChars vs)) := by
    unfold parseLineEntry
    have hne : (String.mk (ks ++ '=' :: vs)).toList ≠ [] := by
      cases ks <;> simp
    rw [if_neg hne]
    have hhd : (String.mk (ks ++ '=' :: vs)).toList.head? ≠ some '#' := by
      cases ks with
      | nil => simp
      | cons c cs =>
        simpa using h2
    rw [if_neg hhd]
    have : (String.mk (ks ++ '=' :: vs)).toList = ks ++ '=' :: vs := rfl
    rw [this, hsplit]
  unfold parseOSRelease
  rw [List.foldl_cons, hentry]
  rfl

/-- Witness for the amended C3 at the concrete line `ID="x"`. -/
theorem c3_key_lower_value_trimmed_witness :
    ('=' ∉ ['I', 'D']) ∧
    parseOSRelease [String.mk (['I', 'D'] ++ '=' :: ['"', 'x', '"'])] =
      [(String.mk (toLowerChars ['I', 'D']), String.mk (trimQuotesChars ['"', 'x', '"']))] :=
  ⟨by decide, c3_key_lower_value_trimmed ['I', 'D'] ['"', 'x', '"'] (by decide) (by decide)⟩

/-! ## C4: fallback device byte order -/

theorem digitChar_hex : ∀ n : Fin 16,
    Nat.digitChar n.val ∈ "0123456789abcdef".toList ∧
    hexDigitVal (Nat.digitChar n.val) = some n.val := by
  decide

theorem byteToHex_chars (b : Fin 256) :
    ∀ c ∈ byteToHex b, c ∈ "0123456789abcdef".toList := by
  intro c hc
  have h1 := (digitChar_hex ⟨b.val / 16, by omega⟩).1
  have h2 := (digitChar_hex ⟨b.val % 16, by omega⟩).1
  simp only [byteToHex, List.mem_cons, List.not_mem_nil, or_false] at hc
  rcases hc with h | h <;> subst h
  · exact h1
  · exact h2

theorem foldl_parseHexStep_byte (n : Nat) (b : Fin 256) (cs : List Char) :
    List.foldl parseHexStep (some n) (byteToHex b ++ cs) =
      List.foldl parseHexStep (some (n * 256 + b.val)) cs := by
  have h1 := (digitChar_hex ⟨b.val / 16, by omega⟩).2
  have h2 := (digitChar_hex ⟨b.val % 16, by omega⟩).2
  simp only [byteToHex, List.cons_append, List.nil_append, List.foldl_cons]
  have heq : (n * 16 + b.val / 16) * 16 + b.val % 16 = n * 256 + b.val := by
    have hb := Nat.div_add_mod b.val 16
    omega
  simp only [parseHexStep, h1, h2, heq]

theorem parseHexDigits_four_bytes (b3 b2 b1 b0 : Fin 256) :
    parseHexDigits (byteToHex b3 ++ byteToHex b2 ++ byteToHex b1 ++ byteToHex b0) =
      some (((b3.val * 256 + b2.val) * 256 + b1.val) * 256 + b0.val) := by
  unfold parseHexDigits
  rw [List.append_assoc, List.append_assoc, foldl_parseHexStep_byte,
    foldl_parseHexStep_byte, ← List.append_nil (byteToHex b1 ++ byteToHex b0),
    List.append_assoc, foldl_parseHexStep_byte, foldl_parseHexStep_byte]
  simp

/-- C4: a successful 4-byte device read `[b0, b1, b2, b3]` at the target
offset resolves to an 8-character lowercase-hex string rendering the bytes in
the order `b3 b2 b1 b0`; re-parsing it as hex yields the big-endian value of
`(b3, b2, b1, b0)`, and on bytes `[0x01, 0x02, 0x03, 0x04]` the string is
`04030201` (see the witness). -/
theorem c4_nvmem_byte_order (env : HwEnv) (offset : Nat) (b0 b1 b2 b3 : Fin 256)
    (h : env.nvmemRead offset = .ok [b0, b1, b2, b3]) :
    readHexValueFromNvmem env offset =
      .ok (String.mk (byteToHex b3 ++ byteToHex b2 ++ byteToHex b1 ++ byteToHex b0)) ∧
    (String.mk (byteToHex b3 ++ byteToHex b2 ++ byteToHex b1 ++ byteToHex b0)).toList.length
        = 8 ∧
    (∀ c ∈ (String.mk (byteToHex b3 ++ byteToHex b2 ++ byteToHex b1 ++
        byteToHex b0)).toList, c ∈ "0123456789abcdef".toList) ∧
    parseHexFromString
        (String.mk (byteToHex b3 ++ byteToHex b2 ++ byteToHex b1 ++ byteToHex b0)) =
      some (((b3.val * 256 + b2.val) * 256 + b1.val) * 256 + b0.val) := by
  have hlen : (String.mk (byteToHex b3 ++ byteToHex b2 ++ byteToHex b1 ++
      byteToHex b0)).toList.length = 8 := by
    simp [byteToHex]
  refine ⟨?_, hlen, ?_, ?_⟩
  · unfold readHexValueFromNvmem
    rw [h]
    dsimp only
    rw [dif_pos (by simp : ([b0, b1, b2, b3] : List (Fin 256)).length = 4)]
    simp only [List.getElem_cons_zero, List.getElem_cons_succ]
    rw [if_pos hlen]
  · intro c hc
    have : (String.mk (byteToHex b3 ++ byteToHex b2 ++ byteToHex b1 ++
        byteToHex b0)).toList = byteToHex b3 ++ byteToHex b2 ++ byteToHex b1 ++
        byteToHex b0 := rfl
    rw [this] at hc
    simp only [List.mem_append] at hc
    rcases hc with ((h3 | h2) | h1) | h0
    · exact byteToHex_chars b3 c h3
    · exact byteToHex_chars b2 c h2
    · exact byteToHex_chars b1 c h1
    · exact byteToHex_chars b0 c h0
  · unfold parseHexFromString
    have htl : (String.mk (byteToHex b3 ++ byteToHex b2 ++ byteToHex b1 ++
        byteToHex b0)).toList = byteToHex b3 ++ byteToHex b2 ++ byteToHex b1 ++
        byteToHex b0 := rfl
    rw [htl, if_neg (by simp [byteToHex]), parseHexDigits_four_bytes]
    have hlt : ((b3.val * 256 + b2.val) * 256 + b1.val) * 256 + b0.val < 2 ^ 64 := by
      have := b3.isLt
      have := b2.isLt
      have := b1.isLt
      have := b0.isLt
      omega
    simp only []
    rw [if_pos hlt]

/-- Witness for C4 at device bytes `[0x01, 0x02, 0x03, 0x04]`: the resolved
string is `04030201`. -/
theorem c4_nvmem_byte_order_witness :
    envC1.nvmemRead 4 = .ok [1, 2, 3, 4] ∧
    readHexValueFromNvmem envC1 4 = .ok "04030201" ∧
    parseHexFromString "04030201" = some 0x04030201 := by
  have h := c4_nvmem_byte_order envC1 4 1 2 3 4 rfl
  refine ⟨rfl, ?_, ?_⟩
  · rw [h.1]
    rfl
  · have hp := h.2.2.2
    rw [show String.mk (byteToHex 4 ++ byteToHex 3 ++ byteToHex 2 ++ byteToHex 1) =
      "04030201" from rfl] at hp
    rw [hp]
    decide

/-! ## C10: duplicate keys — last line wins -/

/-- The value of the LAST well-formed line among `lines` whose (lower-cased)
key is `k`: later lines take precedence. -/
def lastEntryValue (lines : List String) (k : String) : Option String :=
  match lines with
  | [] => none
  | l :: ls =>
    match lastEntryValue ls k with
    | some v => some v
    | none =>
      match parseLineEntry l with
      | some e => if e.1 = k then some e.2 else none
      | none => none

theorem lookupEntry_setEntry (m : List (String × String)) (a v k : String) :
    lookupEntry (setEntry m a v) k = if a = k then some v else lookupEntry m k := by
  induction m with
  | nil => rfl
  | cons e rest ih =>
    by_cases hea : e.1 = a
    · simp only [setEntry, if_pos hea, lookupEntry]
      by_cases hak : a = k
      · rw [if_pos hak, if_pos hak]
      · rw [if_neg hak, if_neg hak, if_neg (by rw [hea]; exact hak)]
    · simp only [setEntry, if_neg hea, lookupEntry]
      by_cases hek : e.1 = k
      · rw [if_pos hek, if_neg (fun hak => hea (hek.trans hak.symm)), if_pos hek]
      · rw [if_neg hek, if_neg hek, ih]

theorem mem_keys_setEntry (m : List (String × String)) (a v k : String)
    (h : k ∈ (setEntry m a v).map Prod.fst) : k = a ∨ k ∈ m.map Prod.fst := by
  induction m with
  | nil =>
    simp only [setEntry, List.map_cons, List.map_nil, List.mem_singleton] at h
    exact Or.inl h
  | cons e rest ih =>
    by_cases hea : e.1 = a
    · simp only [setEntry, if_pos hea, List.map_cons, List.mem_cons] at h
      rcases h with h | h
      · exact Or.inl h
      · exact Or.inr (by simp [h])
    · simp only [setEntry, if_neg hea, List.map_cons, List.mem_cons] at h
      rcases h with h | h
      · exact Or.inr (by simp [h])
      · rcases ih h with h2 | h2
        · exact Or.inl h2
        · exact Or.inr (by simp [h2])

theorem keys_nodup_setEntry (m : List (String × String)) (a v : String)
    (h : (m.map Prod.fst).Nodup) : ((setEntry m a v).map Prod.fst).Nodup := by
  induction m with
  | nil => simp [setEntry]
  | cons e rest ih =>
    rw [List.map_cons, List.nodup_cons] at h
    by_cases hea : e.1 = a
    · simp only [setEntry, if_pos hea, List.map_cons, List.nodup_cons]
      exact ⟨hea ▸ h.1, h.2⟩
    · simp only [setEntry, if_neg hea, List.map_cons, List.nodup_cons]
      refine ⟨fun hmem => ?_, ih h.2⟩
      rcases mem_keys_setEntry rest a v e.1 hmem with h2 | h2
      · exact hea h2
      · exact h.1 h2

/-- One step of the `parseOSRelease` fold. -/
def parseStep (data : List (String × String)) (line : String) :
    List (String × String) :=
  match parseLineEntry line with
  | none => data
  | some kv => setEntry data kv.1 kv.2

theorem parseOSRelease_eq_foldl (lines : List String) :
    parseOSRelease lines = lines.foldl parseStep [] := rfl

theorem keys_nodup_foldl (lines : List String) (acc : List (String × String))
    (h : (acc.map Prod.fst).Nodup) :
    ((lines.foldl parseStep acc).map Prod.fst).Nodup := by
  induction lines generalizing acc with
  | nil => exact h
  | cons l ls ih =>
    rw [List.foldl_cons]
    refine ih _ ?_
    unfold parseStep
    cases parseLineEntry l with
    | none => exact h
    | some kv => exact keys_nodup_setEntry acc kv.1 kv.2 h

theorem lookupEntry_foldl (lines : List String) (acc : List (String × String))
    (k : String) :
    lookupEntry (lines.foldl parseStep acc) k =
      match lastEntryValue lines k with
      | some v => some v
      | none => lookupEntry acc k := by
  induction lines generalizing acc with
  | nil => rfl
  | cons l ls ih =>
    rw [List.foldl_cons, ih]
    cases hv : lastEntryValue ls k with
    | some v => simp only [lastEntryValue, hv]
    | none =>
      simp only [lastEntryValue, hv]
      cases hpe : parseLineEntry l with
      | none => simp only [parseStep, hpe]
      | some e =>
        simp only [parseStep, hpe, lookupEntry_setEntry]
        by_cases hk : e.1 = k
        · simp [hk]
        · simp [hk]

/-- C10: with duplicate (lower-cased) keys, the parsed record has exactly one
entry for the key (its key list is duplicate-free) and its value is the value
of the LAST well-formed line with that key, later lines overwriting earlier
ones. -/
theorem c10_duplicate_keys_last_wins (lines : List String) (k : String) :
    ((parseOSRelease lines).map Prod.fst).Nodup ∧
    lookupEntry (parseOSRelease lines) k = lastEntryValue lines k := by
  constructor
  · rw [parseOSRelease_eq_foldl]
    exact keys_nodup_foldl lines [] (by simp)
  · rw [parseOSRelease_eq_foldl, lookupEntry_foldl]
    cases lastEntryValue lines k <;> rfl

/-! ## C8: parse-serialize-parse round trip -/

/-- Invariant of every entry a parse produces: the key contains no `=` and
does not begin with `#`, the key is already lower-case, and the value has no
leading or trailing double quote. -/
def GoodEntry (e : String × String) : Prop :=
  '=' ∉ e.1.toList ∧ e.1.toList.head? ≠ some '#' ∧
    toLowerChars e.1.toList = e.1.toList ∧ trimQuotesChars e.2.toList = e.2.toList

theorem head?_dropWhile_false {α : Type} (p : α → Bool) (l : List α) (a : α)
    (h : (l.dropWhile p).head? = some a) : p a = false := by
  have hd := List.head?_dropWhile_not p l
  rw [h] at hd
  exact hd

theorem dropWhile_of_head?_false {α : Type} (p : α → Bool) (l : List α)
    (h : ∀ a, l.head? = some a → p a = false) : l.dropWhile p = l := by
  cases l with
  | nil => rfl
  | cons a as =>
    have := h a rfl
    simp [List.dropWhile_cons, this]

theorem trimQuotesChars_eq_rdropWhile (cs : List Char) :
    trimQuotesChars cs =
      List.rdropWhile (fun c => c = '"') (cs.dropWhile (fun c => c = '"')) := rfl

theorem dropWhile_rdropWhile_dropWhile {α : Type} (p : α → Bool) (l : List α) :
    List.dropWhile p (List.rdropWhile p (List.dropWhile p l)) =
      List.rdropWhile p (List.dropWhile p l) := by
  rcases hpre : List.rdropWhile p (List.dropWhile p l) with _ | ⟨a, t⟩
  · rfl
  · have hprefix := List.rdropWhile_prefix p (List.dropWhile p l)
    rw [hpre] at hprefix
    rcases hprefix with ⟨ts, hts⟩
    have hhd : (List.dropWhile p l).head? = some a := by
      rw [← hts]
      rfl
    have hpa := head?_dropWhile_false p l a hhd
    simp [List.dropWhile_cons, hpa]

theorem trimQuotesChars_idem (cs : List Char) :
    trimQuotesChars (trimQuotesChars cs) = trimQuotesChars cs := by
  rw [trimQuotesChars_eq_rdropWhile, trimQuotesChars_eq_rdropWhile,
    dropWhile_rdropWhile_dropWhile, List.rdropWhile_idempotent]

theorem toLowerChars_idem (cs : List Char) :
    toLowerChars (toLowerChars cs) = toLowerChars cs := by
  unfold toLowerChars
  rw [List.map_map]
  exact List.map_congr_left fun c _ => toLower_toLower c

theorem mem_toLowerChars_eq (cs : List Char) (t : Char)
    (ht : ¬(97 ≤ t.toNat ∧ t.toNat ≤ 122)) (h : t ∈ toLowerChars cs) : t ∈ cs := by
  unfold toLowerChars at h
  rcases List.mem_map.mp h with ⟨c, hc, hct⟩
  have := toLower_eq_low_imp c t ht hct
  rwa [this] at hc

theorem splitEqChars_no_eq (cs k v : List Char)
    (h : splitEqChars cs = some (k, v)) : '=' ∉ k := by
  induction cs generalizing k with
  | nil => exact Option.noConfusion h
  | cons c rest ih =>
    unfold splitEqChars at h
    by_cases hc : c = '='
    · rw [if_pos hc] at h
      cases h
      simp
    · rw [if_neg hc] at h
      cases hsp : splitEqChars rest with
      | none =>
        rw [hsp] at h
        exact Option.noConfusion h
      | some kv =>
        rw [hsp] at h
        dsimp only at h
        cases h
        intro hmem
        rcases List.mem_cons.mp hmem with h1 | h1
        · exact hc h1.symm
        · exact ih kv.1 (by rw [hsp]) h1

theorem splitEqChars_key_head (cs k v : List Char)
    (h : splitEqChars cs = some (k, v)) : k = [] ∨ k.head? = cs.head? := by
  cases cs with
  | nil => exact Option.noConfusion h
  | cons c rest =>
    unfold splitEqChars at h
    by_cases hc : c = '='
    · rw [if_pos hc] at h
      cases h
      exact Or.inl rfl
    · rw [if_neg hc] at h
      cases hsp : splitEqChars rest with
      | none =>
        rw [hsp] at h
        exact Option.noConfusion h
      | some kv =>
        rw [hsp] at h
        dsimp only at h
        cases h
        exact Or.inr rfl

theorem mk_toList (s : String) : String.mk s.toList = s := rfl

theorem parse_entry_good (line : String) (e : String × String)
    (h : parseLineEntry line = some e) : GoodEntry e := by
  unfold parseLineEntry at h
  split at h
  · exact Option.noConfusion h
  · split at h
    · exact Option.noConfusion h
    · rename_i hne hhd
      cases hsp : splitEqChars line.toList with
      | none =>
        rw [hsp] at h
        exact Option.noConfusion h
      | some kv =>
        rw [hsp] at h
        dsimp only at h
        cases h
        refine ⟨?_, ?_, ?_, ?_⟩
        · show '=' ∉ (String.mk (toLowerChars kv.1)).toList
          intro hmem
          exact splitEqChars_no_eq line.toList kv.1 kv.2 hsp
            (mem_toLowerChars_eq kv.1 '=' (by decide) hmem)
        · show (String.mk (toLowerChars kv.1)).toList.head? ≠ some '#'
          show (toLowerChars kv.1).head? ≠ some '#'
          unfold toLowerChars
          rw [List.head?_map]
          intro hcontra
          rcases hk : kv.1.head? with _ | c
          · rw [hk] at hcontra
            exact Option.noConfusion hcontra
          · rw [hk] at hcontra
            have hlc : Char.toLower c = '#' := Option.some.inj hcontra
            have hc : c = '#' := toLower_eq_low_imp c '#' (by decide) hlc
            rcases splitEqChars_key_head line.toList kv.1 kv.2 hsp with h0 | h0
            · rw [h0] at hk
              exact Option.noConfusion hk
            · rw [h0, hc] at hk
              exact hhd hk
        · show toLowerChars (String.mk (toLowerChars kv.1)).toList =
            (String.mk (toLowerChars kv.1)).toList
          exact toLowerChars_idem kv.1
        · show trimQuotesChars (String.mk (trimQuotesChars kv.2)).toList =
            (String.mk (trimQuotesChars kv.2)).toList
          exact trimQuotesChars_idem kv.2

theorem mem_setEntry (m : List (String × String)) (k v : String) (e : String × String)
    (h : e ∈ setEntry m k v) : e = (k, v) ∨ e ∈ m := by
  induction m with
  | nil =>
    simp only [setEntry, List.mem_singleton] at h
    exact Or.inl h
  | cons e0 rest ih =>
    unfold setEntry at h
    by_cases he : e0.1 = k
    · rw [if_pos he] at h
      rcases List.mem_cons.mp h with h1 | h1
      · exact Or.inl h1
      · exact Or.inr (List.mem_cons_of_mem _ h1)
    · rw [if_neg he] at h
      rcases List.mem_cons.mp h with h1 | h1
      · exact Or.inr (h1 ▸ List.mem_cons_self _ _)
      · rcases ih h1 with h2 | h2
        · exact Or.inl h2
        · exact Or.inr (List.mem_cons_of_mem _ h2)

theorem good_foldl (lines : List String) (acc : List (String × String))
    (hacc : ∀ e ∈ acc, GoodEntry e) :
    ∀ e ∈ lines.foldl parseStep acc, GoodEntry e := by
  induction lines generalizing acc with
  | nil => exact hacc
  | cons l ls ih =>
    rw [List.foldl_cons]
    refine ih _ ?_
    intro e he
    unfold parseStep at he
    cases hpe : parseLineEntry l with
    | none =>
      rw [hpe] at he
      exact hacc e he
    | some kv =>
      rw [hpe] at he
      rcases mem_setEntry acc kv.1 kv.2 e he with h1 | h1
      · rw [h1]
        have := parse_entry_good l kv hpe
        simpa using this
      · exact hacc e h1

theorem setEntry_append (m : List (String × String)) (k v : String)
    (h : k ∉ m.map Prod.fst) : setEntry m k v = m ++ [(k, v)] := by
  induction m with
  | nil => rfl
  | cons e rest ih =>
    have hek : ¬e.1 = k := by
      intro hc
      exact h (by simp [hc])
    have hrest : k ∉ rest.map Prod.fst := by
      intro hc
      exact h (by simp [hc])
    simp only [setEntry, if_neg hek, List.cons_append, ih hrest]

theorem parseLineEntry_serialized (k v : String) (hg : GoodEntry (k, v)) :
    parseLineEntry (String.mk (k.toList ++ '=' :: v.toList)) = some (k, v) := by
  obtain ⟨h1, h2, h3, h4⟩ := hg
  unfold parseLineEntry
  have htl : (String.mk (k.toList ++ '=' :: v.toList)).toList =
    k.toList ++ '=' :: v.toList := rfl
  rw [htl]
  rw [if_neg (by cases hk : k.toList <;> simp [hk])]
  have hhd : (k.toList ++ '=' :: v.toList).head? ≠ some '#' := by
    cases hk : k.toList with
    | nil => simp
    | cons c cs =>
      rw [hk] at h2
      simpa using h2
  rw [if_neg hhd, splitEqChars_append k.toList v.toList h1]
  dsimp only
  rw [h3, h4, mk_toList, mk_toList]

theorem foldl_serialized (m acc : List (String × String))
    (hg : ∀ e ∈ m, GoodEntry e) (hnodup : (m.map Prod.fst).Nodup)
    (hfresh : ∀ e ∈ m, e.1 ∉ acc.map Prod.fst) :
    List.foldl parseStep acc (serializeEntries m) = acc ++ m := by
  induction m generalizing acc with
  | nil => simp [serializeEntries]
  | cons e m' ih =>
    have hline : serializeEntries (e :: m') =
      String.mk (e.1.toList ++ '=' :: e.2.toList) :: serializeEntries m' := rfl
    rw [hline, List.foldl_cons]
    have hstep : parseStep acc (String.mk (e.1.toList ++ '=' :: e.2.toList)) =
        acc ++ [e] := by
      unfold parseStep
      have hge : GoodEntry (e.1, e.2) := by
        have := hg e (List.mem_cons_self _ _)
        simpa using this
      rw [parseLineEntry_serialized e.1 e.2 hge]
      dsimp only
      rw [setEntry_append acc e.1 e.2 (hfresh e (List.mem_cons_self _ _))]
    rw [hstep]
    rw [List.map_cons, List.nodup_cons] at hnodup
    rw [ih (acc ++ [e]) (fun x hx => hg x (List.mem_cons_of_mem _ hx)) hnodup.2 ?_,
      List.append_assoc]
    · rfl
    · intro x hx hmem
      rw [List.map_append, List.mem_append] at hmem
      rcases hmem with hmem | hmem
      · exact hfresh x (List.mem_cons_of_mem _ hx) hmem
      · simp only [List.map_cons, List.map_nil, List.mem_singleton] at hmem
        exact hnodup.1 (hmem ▸ List.mem_map_of_mem Prod.fst hx)

/-- C8: parsing, then re-serialising the parsed record's entries as unquoted
`key=value` lines and parsing again, yields the same record:
`parse (serialize (parse lines)) = parse lines`. -/
theorem c8_parse_serialize_roundtrip (lines : List String) :
    parseOSRelease (serializeEntries (parseOSRelease lines)) = parseOSRelease lines := by
  have hg : ∀ e ∈ parseOSRelease lines, GoodEntry e := by
    rw [parseOSRelease_eq_foldl]
    exact good_foldl lines [] (by simp)
  have hnd : ((parseOSRelease lines).map Prod.fst).Nodup := by
    rw [parseOSRelease_eq_foldl]
    exact keys_nodup_foldl lines [] (by simp)
  rw [parseOSRelease_eq_foldl (serializeEntries (parseOSRelease lines)),
    foldl_serialized (parseOSRelease lines) [] hg hnd (by simp)]
  rfl

/-! ## C2: effect of a hex parse failure on the two derived serial numbers -/

theorem parseHexFromString_ne_empty (s : String) (v : Nat)
    (h : parseHexFromString s = some v) : s ≠ "" := by
  intro hs
  subst hs
  exact Option.noConfusion h

/-- Environment: device absent, CFG0 pseudo-file holds the unparseable string
`zz`, CFG1 pseudo-file holds `0x00000001`; empty release file; store healthy. -/
def envC2 : MainEnv :=
  { osOpen := .ok []
    scanErr := none
    pingOk := true
    hsetFail := fun _ _ => false
    hw :=
      { nvmemPresent := false
        nvmemRead := fun _ => .error "no such file or directory"
        otpRead := fun p => if p = otpCfg0Path then .ok "zz" else .ok "0x00000001" } }

/-- C2 counterexample: CFG0 resolves to `zz` which fails the 64-bit hex
parse, yet the run still writes `serial_number_real` (and exits 0); only the
`serial_number` derivation is aborted.  The claim that neither derived field
is written is false on the code. -/
theorem c2_counterexample :
    (getIdentifierHexStrings envC2.hw).cfg0Hex = "zz" ∧
    (getIdentifierHexStrings envC2.hw).cfg1Hex = "00000001" ∧
    parseHexFromString "zz" = none ∧
    mainRun envC2 = ⟨0, [("serial_number_real", "00000001zz")]⟩ :=
  ⟨rfl, rfl, rfl, rfl⟩

/-- C2 (amended): when both fields resolve to non-empty hex strings but at
least one fails to parse as an unsigned 64-bit integer, the parse failure
aborts only the SerialNumber derivation (no `serial_number` write is
attempted), while the SerialNumberReal derivation still proceeds:
`serial_number_real` is written with the concatenated hex strings. -/
theorem c2_parse_failure_only_aborts_legacy (env : MainEnv) (idr : IdResult)
    (h0 : idr.cfg0Hex ≠ "") (h1 : idr.cfg1Hex ≠ "")
    (hp : parseHexFromString idr.cfg0Hex = none ∨
      parseHexFromString idr.cfg1Hex = none) :
    serialNumberWrites env idr =
      ([("serial_number_real", idr.cfg1Hex ++ idr.cfg0Hex)],
       !env.hsetFail "serial_number_real" (idr.cfg1Hex ++ idr.cfg0Hex)) := by
  unfold serialNumberWrites
  rw [if_pos (show idr.cfg0Hex ≠ "" ∧ idr.cfg1Hex ≠ "" from ⟨h0, h1⟩)]
  have hmatch : (match parseHexFromString idr.cfg0Hex, parseHexFromString idr.cfg1Hex with
      | some v0, some v1 =>
        ([("serial_number", Nat.repr ((v0 + v1) % 2 ^ 64))],
         !env.hsetFail "serial_number" (Nat.repr ((v0 + v1) % 2 ^ 64)))
      | _, _ => (([] : List (String × String)), true)) =
      (([] : List (String × String)), true) := by
    rcases hp with hp | hp <;> rw [hp] <;>
      cases parseHexFromString idr.cfg0Hex <;>
      cases parseHexFromString idr.cfg1Hex <;> rfl
  rw [hmatch]
  dsimp only
  rw [if_pos (show idr.cfg0Hex ≠ "" ∧ idr.cfg1Hex ≠ "" from ⟨h0, h1⟩)]
  rfl

/-- Witness for the amended C2: CFG0 `zz`, CFG1 `00000001`. -/
theorem c2_parse_failure_only_aborts_legacy_witness :
    (parseHexFromString "zz" = none ∨ parseHexFromString "00000001" = none) ∧
    serialNumberWrites envC2 ⟨"zz", "00000001", none, []⟩ =
      ([("serial_number_real", "00000001zz")], true) := by
  refine ⟨Or.inl rfl, ?_⟩
  have h := c2_parse_failure_only_aborts_legacy envC2 ⟨"zz", "00000001", none, []⟩
    (by decide) (by decide) (Or.inl rfl)
  rw [h]
  rfl

/-! ## C5: derived serial values when both fields parse -/

/-- C5: when both resolved hex strings parse as unsigned 64-bit integers (and
no store write fails), the run derives `serial_number` as the decimal string
of the wrapping 64-bit sum and `serial_number_real` as CFG1's hex string
concatenated with CFG0's hex string, in that order. -/
theorem c5_serial_derivations (env : MainEnv) (idr : IdResult) (v0 v1 : Nat)
    (h0 : parseHexFromString idr.cfg0Hex = some v0)
    (h1 : parseHexFromString idr.cfg1Hex = some v1)
    (hw : ∀ k v, env.hsetFail k v = false) :
    serialNumberWrites env idr =
      ([("serial_number", Nat.repr ((v0 + v1) % 2 ^ 64)),
        ("serial_number_real", idr.cfg1Hex ++ idr.cfg0Hex)], true) := by
  have hne0 : idr.cfg0Hex ≠ "" := parseHexFromString_ne_empty _ _ h0
  have hne1 : idr.cfg1Hex ≠ "" := parseHexFromString_ne_empty _ _ h1
  unfold serialNumberWrites
  rw [if_pos (show idr.cfg0Hex ≠ "" ∧ idr.cfg1Hex ≠ "" from ⟨hne0, hne1⟩), h0, h1]
  dsimp only
  rw [hw "serial_number" (Nat.repr ((v0 + v1) % 2 ^ 64))]
  show (_, _) = _
  rw [if_pos (show idr.cfg0Hex ≠ "" ∧ idr.cfg1Hex ≠ "" from ⟨hne0, hne1⟩),
    hw "serial_number_real" (idr.cfg1Hex ++ idr.cfg0Hex)]
  rfl

/-- Healthy store environment with an empty release file, used as witness
input. -/
def envC5 : MainEnv :=
  { osOpen := .ok []
    scanErr := none
    pingOk := true
    hsetFail := fun _ _ => false
    hw :=
      { nvmemPresent := false
        nvmemRead := fun _ => .error "no such file or directory"
        otpRead := fun _ => .error "no such file or directory" } }

/-- Witness for C5 at CFG0 `00000001`, CFG1 `00000002`: SerialNumber `3`,
SerialNumberReal `0000000200000001`. -/
theorem c5_serial_derivations_witness :
    parseHexFromString "00000001" = some 1 ∧
    parseHexFromString "00000002" = some 2 ∧
    serialNumberWrites envC5 ⟨"00000001", "00000002", none, []⟩ =
      ([("serial_number", "3"), ("serial_number_real", "0000000200000001")], true) := by
  refine ⟨rfl, rfl, ?_⟩
  have h := c5_serial_derivations envC5 ⟨"00000001", "00000002", none, []⟩ 1 2 rfl rfl
    (fun _ _ => rfl)
  rw [h]
  rfl

/-! ## C7: a failed probe means zero writes -/

/-- C7: in every run whose release file was read successfully but whose store
connectivity probe fails, the process performs zero store writes and exits
non-zero. -/
theorem c7_failed_probe_no_writes (env : MainEnv)
    (hread : (readOSRelease env.osOpen env.scanErr).isOk = true)
    (hping : env.pingOk = false) :
    mainRun env = ⟨1, []⟩ := by
  unfold mainRun
  cases hr : readOSRelease env.osOpen env.scanErr with
  | error e => rfl
  | ok osReleaseData =>
    dsimp only
    rw [hping]
    rfl

/-- Witness for C7: healthy file, dead store. -/
theorem c7_failed_probe_no_writes_witness :
    mainRun
      { osOpen := .ok ["NAME=x"], scanErr := none, pingOk := false,
        hsetFail := fun _ _ => false, hw := envC5.hw } = ⟨1, []⟩ :=
  c7_failed_probe_no_writes _ rfl rfl

/-! ## C6: the exit code -/

/-- A write batch satisfies the failure invariant when its success flag is
`false` exactly if one of its attempted writes fails. -/
def WriteFailInv (env : MainEnv) (p : List (String × String) × Bool) : Prop :=
  p.2 = false ↔ ∃ e ∈ p.1, env.hsetFail e.1 e.2 = true

theorem writeFailInv_nil (env : MainEnv) : WriteFailInv env ([], true) := by
  simp [WriteFailInv]

theorem writeFailInv_single (env : MainEnv) (k v : String) :
    WriteFailInv env ([(k, v)], !env.hsetFail k v) := by
  simp [WriteFailInv]

theorem writeFailInv_seq (env : MainEnv) (p q : List (String × String) × Bool)
    (hp : WriteFailInv env p) (hq : WriteFailInv env q) :
    WriteFailInv env (if p.2 = false then (p.1, false) else (p.1 ++ q.1, q.2)) := by
  unfold WriteFailInv at hp hq ⊢
  by_cases h2 : p.2 = false
  · rw [if_pos h2]
    simpa using hp.mp h2
  · rw [if_neg h2]
    dsimp only
    rw [hq]
    constructor
    · rintro ⟨e, he, hf⟩
      exact ⟨e, List.mem_append_right _ he, hf⟩
    · rintro ⟨e, he, hf⟩
      rcases List.mem_append.mp he with he1 | he1
      · exact absurd (hp.mpr ⟨e, he1, hf⟩) h2
      · exact ⟨e, he1, hf⟩

theorem hsetSeq_writeFailInv (env : MainEnv) (l : List (String × String)) :
    WriteFailInv env (hsetSeq env l) := by
  induction l with
  | nil => exact writeFailInv_nil env
  | cons e rest ih =>
    unfold WriteFailInv at ih ⊢
    unfold hsetSeq
    by_cases hf : env.hsetFail e.1 e.2 = true
    · rw [if_pos hf]
      constructor
      · intro _
        exact ⟨e, by simp, hf⟩
      · intro _
        rfl
    · rw [if_neg hf]
      dsimp only
      rw [ih]
      constructor
      · rintro ⟨x, hx, hxf⟩
        exact ⟨x, List.mem_cons_of_mem _ hx, hxf⟩
      · rintro ⟨x, hx, hxf⟩
        rcases List.mem_cons.mp hx with hx1 | hx1
        · rw [hx1] at hxf
          exact absurd hxf hf
        · exact ⟨x, hx1, hxf⟩

theorem serialNumberWrites_writeFailInv (env : MainEnv) (idr : IdResult) :
    WriteFailInv env (serialNumberWrites env idr) := by
  unfold serialNumberWrites
  refine writeFailInv_seq env _ _ ?_ ?_
  · by_cases hc : idr.cfg0Hex ≠ "" ∧ idr.cfg1Hex ≠ ""
    · rw [if_pos hc]
      cases parseHexFromString idr.cfg0Hex <;> cases parseHexFromString idr.cfg1Hex
      · exact writeFailInv_nil env
      · exact writeFailInv_nil env
      · exact writeFailInv_nil env
      · exact writeFailInv_single env _ _
    · rw [if_neg hc]
      exact writeFailInv_nil env
  · by_cases hc : idr.cfg0Hex ≠ "" ∧ idr.cfg1Hex ≠ ""
    · rw [if_pos hc]
      exact writeFailInv_single env _ _
    · rw [if_neg hc]
      exact writeFailInv_nil env

/-- C6: the run exits non-zero exactly when the release file is unreadable,
the connectivity probe fails, or one of the attempted store writes fails;
in every other run — including runs where identifier resolution or serial
derivation failed — it exits zero. -/
theorem c6_exit_nonzero_iff (env : MainEnv) :
    (mainRun env).exitCode ≠ 0 ↔
      ((readOSRelease env.osOpen env.scanErr).isOk = false ∨
        env.pingOk = false ∨
        ∃ e ∈ (mainRun env).writes, env.hsetFail e.1 e.2 = true) := by
  cases hr : readOSRelease env.osOpen env.scanErr with
  | error e =>
    have hmain : mainRun env = ⟨1, []⟩ := by
      unfold mainRun
      rw [hr]
    rw [hmain]
    simp [Except.isOk, Except.toBool]
  | ok osReleaseData =>
    cases hping : env.pingOk with
    | false =>
      have hmain : mainRun env = ⟨1, []⟩ := by
        unfold mainRun
        rw [hr]
        dsimp only
        rw [hping]
        rfl
      rw [hmain]
      simp
    | true =>
      have hosw := hsetSeq_writeFailInv env osReleaseData
      by_cases h2 : (hsetSeq env osReleaseData).2 = false
      · have hmain : mainRun env = ⟨1, (hsetSeq env osReleaseData).1⟩ := by
          unfold mainRun
          rw [hr]
          dsimp only
          rw [hping]
          show (if (hsetSeq env osReleaseData).2 = false then _ else _) = _
          rw [if_pos h2]
        rw [hmain]
        have hex := hosw.mp h2
        simp only [Except.isOk, Except.toBool]
        simpa using hex
      · have hser := serialNumberWrites_writeFailInv env (getIdentifierHexStrings env.hw)
        by_cases h3 : (serialNumberWrites env (getIdentifierHexStrings env.hw)).2 = false
        · have hmain : mainRun env = ⟨1, (hsetSeq env osReleaseData).1 ++
              (serialNumberWrites env (getIdentifierHexStrings env.hw)).1⟩ := by
            unfold mainRun
            rw [hr]
            dsimp only
            rw [hping]
            show (if (hsetSeq env osReleaseData).2 = false then _ else _) = _
            rw [if_neg h2]
            show (if (serialNumberWrites env (getIdentifierHexStrings env.hw)).2 = false
              then _ else _) = _
            rw [if_pos h3]
          rw [hmain]
          rcases hser.mp h3 with ⟨x, hx, hxf⟩
          have hmem : ∃ e ∈ (hsetSeq env osReleaseData).1 ++
              (serialNumberWrites env (getIdentifierHexStrings env.hw)).1,
              env.hsetFail e.1 e.2 = true :=
            ⟨x, List.mem_append_right _ hx, hxf⟩
          simp only [Except.isOk, Except.toBool]
          simpa using hmem
        · have hmain : mainRun env = ⟨0, (hsetSeq env osReleaseData).1 ++
              (serialNumberWrites env (getIdentifierHexStrings env.hw)).1⟩ := by
            unfold mainRun
            rw [hr]
            dsimp only
            rw [hping]
            show (if (hsetSeq env osReleaseData).2 = false then _ else _) = _
            rw [if_neg h2]
            show (if (serialNumberWrites env (getIdentifierHexStrings env.hw)).2 = false
              then _ else _) = _
            rw [if_neg h3]
          rw [hmain]
          refine iff_of_false (by simp) ?_
          rintro (h | h | ⟨x, hx, hxf⟩)
          · simp [Except.isOk, Except.toBool] at h
          · exact Bool.noConfusion h
          · rcases List.mem_append.mp hx with hx1 | hx1
            · exact h2 (hosw.mpr ⟨x, hx1, hxf⟩)
            · exact h3 (hser.mpr ⟨x, hx1, hxf⟩)

end VersionService
